import Mathlib

/-!
Verification development for the `treenav` terminal directory navigator.

Each Rust function of the core (src/app.rs, src/state.rs, src/tree.rs,
src/size.rs, src/main.rs) that the claims touch is shallowly embedded as a
Lean definition below, keeping the source structure and names.  Filesystem
access is modelled by an explicit oracle (`Fs`), machine integers by `Nat`
(the `u16` score uses an explicit `% 65536`, mirroring release-mode
wrapping), and OS paths by lists of components.
-/

namespace Treenav

/-! ## Fuzzy matcher (src/app.rs, `fuzzy_score`) -/

/-- Separator test from the scan loop: `c == '/' || c == '.' || c == '_' ||
c == '-' || c == ' '` (src/app.rs:24). -/
def isSeparator (c : Char) : Bool :=
  c = '/' || c = '.' || c = '_' || c = '-' || c = ' '

/-- The `for c in haystack.chars()` loop of `fuzzy_score` (src/app.rs:23-33),
with the loop state (remaining needle, accumulated score, `prev_match`,
`prev_was_separator`) made explicit.  The score is a `u16`; additions wrap,
hence the `% 65536`. -/
def fuzzyLoop : List Char → List Char → Nat → Bool → Bool → Option Nat
  | [], needle, score, _, _ => if needle.isEmpty then some score else none
  | c :: hs, n :: ns, score, prevMatch, prevSep =>
    if c = n then
      fuzzyLoop hs ns ((score + (if prevSep then 10 else if prevMatch then 5 else 1)) % 65536)
        true (isSeparator c)
    else
      fuzzyLoop hs (n :: ns) score false (isSeparator c)
  | c :: hs, [], score, _, _ => fuzzyLoop hs [] score false (isSeparator c)

/-- `fuzzy_score` (src/app.rs:14-40): empty needle returns `Some(0)`;
otherwise the scan starts with `score = 0`, `prev_match = false`,
`prev_was_separator = true`, and succeeds iff the whole needle was
consumed. -/
def fuzzy_score (haystack needle : List Char) : Option Nat :=
  if needle.isEmpty then some 0
  else fuzzyLoop haystack needle 0 false true

/-- Lowercasing as applied by `update_search_matches` (src/app.rs:587,593):
both the query and each candidate basename are lowercased before matching.
Modelled per-character with `Char.toLower`. -/
def toLowerList (s : List Char) : List Char := s.map Char.toLower

/-- The candidate scoring of `update_search_matches` (src/app.rs:590-596):
`fuzzy_score(&name.to_lowercase(), &query.to_lowercase().chars())`. -/
def searchMatchScore (query name : List Char) : Option Nat :=
  fuzzy_score (toLowerList name) (toLowerList query)

/-- Once the needle is exhausted the loop keeps scanning but never changes
the score, and the final check succeeds. -/
theorem fuzzyLoop_nil_needle (hs : List Char) (s : Nat) (pm ps : Bool) :
    fuzzyLoop hs [] s pm ps = some s := by
  induction hs generalizing pm ps with
  | nil => simp [fuzzyLoop]
  | cons c t ih => simp [fuzzyLoop, ih]

/-- The greedy scan succeeds exactly when the needle is a sublist
(subsequence) of the haystack, independently of the score state. -/
theorem fuzzyLoop_isSome_iff (hs : List Char) :
    ∀ (n : List Char) (s : Nat) (pm ps : Bool),
      (fuzzyLoop hs n s pm ps).isSome = true ↔ n.Sublist hs := by
  induction hs with
  | nil =>
    intro n s pm ps
    cases n with
    | nil => simp [fuzzyLoop]
    | cons m ms => simp [fuzzyLoop]
  | cons c t ih =>
    intro n s pm ps
    cases n with
    | nil =>
      simp [fuzzyLoop, fuzzyLoop_nil_needle, List.nil_sublist]
    | cons m ms =>
      by_cases hcm : c = m
      · subst hcm
        simp only [fuzzyLoop, eq_self_iff_true, if_true]
        rw [ih]
        exact (List.cons_sublist_cons).symm
      · simp only [fuzzyLoop, if_neg hcm]
        rw [ih]
        constructor
        · exact fun h => h.cons c
        · intro h
          rcases List.sublist_cons_iff.mp h with h' | ⟨r, hr, hr'⟩
          · exact h'
          · cases hr
            exact absurd rfl hcm

/-- **C1.** For every non-empty query `q` and haystack `h`, the search
scoring of `update_search_matches` produces a match (`Some`) iff the
characters of `q` occur in order, case-insensitively, as a subsequence of
`h` (i.e. the lowercased query is a sublist of the lowercased haystack);
candidates for which it returns `none` are dropped by the `filter_map`
with no partial credit. -/
theorem fuzzy_match_iff_subsequence (q h : List Char) (hq : q ≠ []) :
    (searchMatchScore q h).isSome = true ↔ (toLowerList q).Sublist (toLowerList h) := by
  have hq' : (toLowerList q).isEmpty = false := by
    cases q with
    | nil => exact absurd rfl hq
    | cons a as => simp [toLowerList]
  unfold searchMatchScore fuzzy_score
  rw [if_neg (by simp [hq'] : ¬ (toLowerList q).isEmpty = true)]
  exact fuzzyLoop_isSome_iff (toLowerList h) (toLowerList q) 0 false true

/-- Witness for C1 at the spec's own example: query `"mrs"` matches
haystack `"main.rs"`. -/
theorem fuzzy_match_iff_subsequence_witness :
    (searchMatchScore "mrs".toList "main.rs".toList).isSome = true ↔
      (toLowerList "mrs".toList).Sublist (toLowerList "main.rs".toList) :=
  fuzzy_match_iff_subsequence "mrs".toList "main.rs".toList (by decide)

/-- **C2, counterexample.** The claim says `fuzzy_score "config.rs" "cr"` is
strictly lower than `fuzzy_score "config.rs" "co"`.  In fact the `'r'` of
`"config.rs"` immediately follows the separator `'.'`, so it is awarded the
boundary bonus 10: `"cr"` scores 20 while `"co"` scores 15, and 20 is not
lower than 15. -/
theorem fuzzy_cr_not_lower_than_co :
    fuzzy_score "config.rs".toList "cr".toList = some 20 ∧
    fuzzy_score "config.rs".toList "co".toList = some 15 ∧
    ¬ (20 < 15) := by
  refine ⟨by decide, by decide, by decide⟩

/-- **C2, amended.** Query `"cr"` against `"config.rs"` scores 20 (boundary
`'c'` 10, then `'r'` right after the separator `'.'` another 10), while
`"co"` scores 15 (boundary `'c'` 10, consecutive `'o'` 5): `"cr"` scores
strictly higher than `"co"`. -/
theorem fuzzy_cr_higher_than_co :
    fuzzy_score "config.rs".toList "cr".toList = some 20 ∧
    fuzzy_score "config.rs".toList "co".toList = some 15 ∧
    15 < 20 := by
  refine ⟨by decide, by decide, by decide⟩

/-- **C10.** The scan starts in the state `prev_was_separator = true`
(src/app.rs:21), so the start of the haystack counts as a separator
boundary: (a) a query character matched at the very first position is
awarded 10 points — matching the single-character query `[c]` against any
haystack starting with `c` scores exactly 10; (b) the start of the string
behaves exactly like the position after a separator — prepending a
separator character that does not match the first needle character leaves
the score unchanged. -/
theorem first_position_is_separator_boundary :
    (∀ (c : Char) (t : List Char), fuzzy_score (c :: t) [c] = some 10) ∧
    (∀ (c : Char) (h q : List Char), isSeparator c = true → q.head? ≠ some c →
      fuzzy_score (c :: h) q = fuzzy_score h q) := by
  constructor
  · intro c t
    simp [fuzzy_score, fuzzyLoop, fuzzyLoop_nil_needle]
  · intro c h q hsep hhead
    cases q with
    | nil => simp [fuzzy_score]
    | cons d ds =>
      have hdc : ¬ (c = d) := by
        intro hcd
        exact hhead (by simp [hcd])
      simp [fuzzy_score, fuzzyLoop, hdc, hsep]

/-- Witness for C10: both parts at concrete inputs. -/
theorem first_position_is_separator_boundary_witness :
    fuzzy_score ['a', 'b'] ['a'] = some 10 ∧
    fuzzy_score ['/', 'x', 'y'] ['x'] = fuzzy_score ['x', 'y'] ['x'] :=
  ⟨first_position_is_separator_boundary.1 'a' ['b'],
   first_position_is_separator_boundary.2 '/' ['x', 'y'] ['x'] (by decide) (by decide)⟩

/-! ## Paths and the persistent state store (src/state.rs) -/

/-- An absolute OS path, as its list of components (`[]` is the root). -/
abbrev TPath := List String

/-- `Bookmark` (src/state.rs:8-14); `created_at` is epoch seconds. -/
structure Bookmark where
  path : TPath
  label : String
  created_at : Nat
deriving DecidableEq

/-- `PersistentState` (src/state.rs:16-27).  The two `HashSet`s are
modelled as lists used only through membership, insertion and removal;
`recent_dirs` is the `VecDeque`, front first. -/
structure PersistentState where
  expanded_dirs : List TPath
  starred_dirs : List TPath
  show_hidden : Bool
  bookmarks : List Bookmark
  recent_dirs : List TPath
deriving DecidableEq

/-- `add_bookmark` (src/state.rs:52-62): `retain(|b| b.path != path)` then
push a fresh bookmark stamped with the current time (passed here as
`now`). -/
def add_bookmark (s : PersistentState) (path : TPath) (label : String) (now : Nat) :
    PersistentState :=
  { s with bookmarks :=
      s.bookmarks.filter (fun b => decide (b.path ≠ path)) ++ [⟨path, label, now⟩] }

/-- The `while self.recent_dirs.len() > 50 { pop_back }` loop of
`add_recent` (src/state.rs:71-73). -/
def popBackTo50 (l : List TPath) : List TPath :=
  if 50 < l.length then popBackTo50 l.dropLast else l
termination_by l.length
decreasing_by
  simp only [List.length_dropLast]
  omega

/-- `add_recent` (src/state.rs:68-74): `retain(|p| p != &path)`, then
`push_front(path)`, then pop from the back down to 50 entries. -/
def add_recent (s : PersistentState) (path : TPath) : PersistentState :=
  { s with recent_dirs :=
      popBackTo50 (path :: s.recent_dirs.filter (fun q => decide (q ≠ path))) }

/-- The pop-back loop keeps exactly the first 50 elements. -/
theorem popBackTo50_eq_take (l : List TPath) : popBackTo50 l = l.take 50 := by
  by_cases h : 50 < l.length
  · rw [popBackTo50, if_pos h]
    rw [popBackTo50_eq_take l.dropLast]
    rw [List.dropLast_eq_take]
    rw [List.take_take]
    congr 1
    omega
  · rw [popBackTo50, if_neg h]
    exact (List.take_of_length_le (by omega)).symm
termination_by l.length
decreasing_by
  simp only [List.length_dropLast]
  omega

/-- **C7.** `add_recent` puts `path` at the front; any previous occurrence
is removed so exactly one copy remains; the result never exceeds 50
entries; and it is precisely the first 50 elements of `path` followed by
the old list with `path` deleted — so eviction takes the oldest (backmost)
entries first and all other entries keep their relative order. -/
theorem add_recent_spec (s : PersistentState) (path : TPath) :
    ((add_recent s path).recent_dirs.head? = some path) ∧
    ((add_recent s path).recent_dirs.count path = 1) ∧
    ((add_recent s path).recent_dirs.length ≤ 50) ∧
    ((add_recent s path).recent_dirs
      = (path :: s.recent_dirs.filter (fun q => decide (q ≠ path))).take 50) := by
  have hchar : (add_recent s path).recent_dirs
      = (path :: s.recent_dirs.filter (fun q => decide (q ≠ path))).take 50 := by
    simp [add_recent, popBackTo50_eq_take]
  refine ⟨?_, ?_, ?_, hchar⟩
  · rw [hchar]
    simp [List.take_succ_cons]
  · rw [hchar]
    rw [List.take_succ_cons]
    rw [List.count_cons_self]
    have hnot : path ∉ (s.recent_dirs.filter (fun q => decide (q ≠ path))).take 49 := by
      intro hmem
      have := List.mem_of_mem_take hmem
      have := List.of_mem_filter this
      simp at this
    rw [List.count_eq_zero.mpr hnot]
  · rw [hchar]
    exact List.length_take_le 50 _

/-- **C8.** When `path` is already bookmarked, `add_bookmark` leaves
exactly one bookmark for that path — the new one, with the new label and
the current timestamp — and the bookmarks of every other path are exactly
as before (same entries, same order). -/
theorem add_bookmark_spec (s : PersistentState) (path : TPath) (label : String) (now : Nat)
    (_halready : ∃ b ∈ s.bookmarks, b.path = path) :
    ((add_bookmark s path label now).bookmarks.filter (fun b => decide (b.path = path))
        = [⟨path, label, now⟩]) ∧
    ((add_bookmark s path label now).bookmarks.filter (fun b => decide (b.path ≠ path))
        = s.bookmarks.filter (fun b => decide (b.path ≠ path))) := by
  constructor
  · simp only [add_bookmark, List.filter_append]
    rw [List.filter_filter]
    have h1 : s.bookmarks.filter
        (fun b => decide (b.path = path) && decide (b.path ≠ path)) = [] := by
      apply List.filter_eq_nil_iff.mpr
      intro b _
      by_cases hb : b.path = path <;> simp [hb]
    have h2 : [Bookmark.mk path label now].filter (fun b => decide (b.path = path))
        = [⟨path, label, now⟩] := by simp
    rw [h1, h2]
    rfl
  · simp only [add_bookmark, List.filter_append]
    rw [List.filter_filter]
    have h1 : (fun (b : Bookmark) => decide (b.path ≠ path) && decide (b.path ≠ path))
        = fun b => decide (b.path ≠ path) := by
      funext b
      by_cases hb : b.path = path <;> simp [hb]
    have h2 : [Bookmark.mk path label now].filter (fun b => decide (b.path ≠ path)) = [] := by
      simp
    rw [h1, h2, List.append_nil]

/-- Witness for C8 at a concrete already-bookmarked path. -/
theorem add_bookmark_spec_witness :
    ((add_bookmark ⟨[], [], false, [⟨["a"], "old", 1⟩], []⟩ ["a"] "new" 5).bookmarks.filter
        (fun b => decide (b.path = ["a"])) = [⟨["a"], "new", 5⟩]) ∧
    ((add_bookmark ⟨[], [], false, [⟨["a"], "old", 1⟩], []⟩ ["a"] "new" 5).bookmarks.filter
        (fun b => decide (b.path ≠ ["a"]))
      = (⟨[], [], false, [⟨["a"], "old", 1⟩], []⟩ : PersistentState).bookmarks.filter
        (fun b => decide (b.path ≠ ["a"]))) :=
  add_bookmark_spec ⟨[], [], false, [⟨["a"], "old", 1⟩], []⟩ ["a"] "new" 5
    ⟨⟨["a"], "old", 1⟩, by simp, rfl⟩

/-! ## Saving at shutdown (src/state.rs `save`, src/app.rs `run`,
src/main.rs `main`) -/

/-- Error kinds relevant to the embedding of `io::Error`. -/
inductive IoErr
  | permissionDenied
  | notFound
  | other
deriving DecidableEq

/-- The I/O environment of `PersistentState::save` (src/state.rs:41-50):
the optional state-file location (`dirs::data_dir()` may be absent) and the
outcomes of `fs::create_dir_all` and `fs::write`.  `serde_json::to_string_pretty`
cannot fail on this type, so it is not modelled as fallible. -/
structure SaveEnv where
  statePath : Option TPath
  createDirAll : Except IoErr Unit
  writeFile : Except IoErr Unit

/-- `PersistentState::save` (src/state.rs:41-50): when a state path exists,
create the parent directories (`?`), then write the file (`?`); with no
data directory it does nothing and returns `Ok(())`. -/
def save (env : SaveEnv) : Except IoErr Unit :=
  match env.statePath with
  | some _ => do
      let _ ← env.createDirAll
      let _ ← env.writeFile
      pure ()
  | none => Except.ok ()

/-- The tail of `App::run` (src/app.rs:149-150): after the loop exits,
`self.persistent_state.save()?; Ok(())` — the `?` re-raises any save
error. -/
def app_run_result (env : SaveEnv) : Except IoErr Unit := do
  let _ ← save env
  pure ()

/-- The tail of `main` (src/main.rs:47-62): `let result = app.run(...)`,
restore the terminal, print the selection, and return `result` — the run
result becomes the process result. -/
def main_result (runResult : Except IoErr Unit) : Except IoErr Unit :=
  runResult

/-- **C5, counterexample.** A failed write during the shutdown `save()` is
not swallowed: with a present state path and a permission-denied write,
`App::run` returns the error and `main` returns it in turn, so the clean
exit becomes a process error. -/
theorem save_failure_not_swallowed :
    main_result (app_run_result ⟨some ["state"], Except.ok (), Except.error IoErr.permissionDenied⟩)
      = Except.error IoErr.permissionDenied ∧
    main_result (app_run_result ⟨some ["state"], Except.ok (), Except.error IoErr.permissionDenied⟩)
      ≠ Except.ok () := by
  refine ⟨rfl, fun h => Except.noConfusion h⟩

/-- **C5, amended.** A failure of `save()` at clean shutdown propagates:
`App::run` re-raises it with `?` and `main` returns `run`'s result, so the
process exits with exactly that error. -/
theorem save_failure_propagates (env : SaveEnv) (e : IoErr) (h : save env = Except.error e) :
    main_result (app_run_result env) = Except.error e := by
  simp [main_result, app_run_result, h]

/-- Witness for the amended C5 at a concrete failing environment. -/
theorem save_failure_propagates_witness :
    main_result (app_run_result ⟨some ["state"], Except.error IoErr.notFound, Except.ok ()⟩)
      = Except.error IoErr.notFound :=
  save_failure_propagates ⟨some ["state"], Except.error IoErr.notFound, Except.ok ()⟩
    IoErr.notFound rfl

/-! ## Tree builder (src/tree.rs), over an explicit filesystem oracle -/

/-- The filesystem as seen by the builder: directory listings
(`fs::read_dir`, which may fail), the directory test (`Path::is_dir`), and
the existence test (`Path::exists`). -/
structure Fs where
  readDir : TPath → Except IoErr (List TPath)
  isDir : TPath → Bool
  pathExists : TPath → Bool

/-- The `HashMap<PathBuf, Option<u64>>` of directory sizes, as an
association list; a lookup takes the most recent insertion. -/
abbrev SizeMap := List (TPath × Option Nat)

/-- `HashMap::get`. -/
def mapGet (m : SizeMap) (k : TPath) : Option (Option Nat) :=
  (m.find? (fun e => decide (e.1 = k))).map (fun e => e.2)

/-- `HashMap::insert` (the new binding shadows any older one). -/
def mapInsert (m : SizeMap) (k : TPath) (v : Option Nat) : SizeMap :=
  (k, v) :: m

/-- `Path::file_name`, i.e. the last path component. -/
def fileName (p : TPath) : Option String := p.getLast?

/-- `str::starts_with('.')`, on the underlying characters. -/
def strHeadIsDot (n : String) : Bool :=
  match n.data with
  | c :: _ => decide (c = '.')
  | [] => false

/-- `is_hidden` (src/tree.rs:10-15): basename starts with `'.'`. -/
def is_hidden (p : TPath) : Bool :=
  match fileName p with
  | some n => strHeadIsDot n
  | none => false

/-- Three-way comparison of characters by code point (`OsString` comparison
is bytewise, which over UTF-8 agrees with code-point order). -/
def cmpChar (a b : Char) : Ordering :=
  if a.toNat < b.toNat then .lt else if b.toNat < a.toNat then .gt else .eq

/-- Lexicographic three-way comparison of strings as character lists. -/
def cmpCharList : List Char → List Char → Ordering
  | [], [] => .eq
  | [], _ :: _ => .lt
  | _ :: _, [] => .gt
  | a :: as, b :: bs =>
    match cmpChar a b with
    | .eq => cmpCharList as bs
    | o => o

/-- `Ord` on `Option`: `None` sorts before `Some`. -/
def cmpOptName : Option (List Char) → Option (List Char) → Ordering
  | none, none => .eq
  | none, some _ => .lt
  | some _, none => .gt
  | some a, some b => cmpCharList a b

/-- `a.file_name().map(|n| n.to_ascii_lowercase())` (src/tree.rs:54-55);
`Char.toLower` lowercases exactly the basic latin letters, as
`to_ascii_lowercase` does. -/
def lowerName (p : TPath) : Option (List Char) :=
  (fileName p).map (fun n => n.data.map Char.toLower)

/-- The comparator closure of `sort_entries` (src/tree.rs:47-58):
directories first, then case-insensitive comparison of basenames. -/
def entryCmp (fs : Fs) (a b : TPath) : Ordering :=
  match fs.isDir a, fs.isDir b with
  | true, false => .lt
  | false, true => .gt
  | _, _ => cmpOptName (lowerName a) (lowerName b)

/-- The non-strict order induced by the comparator. -/
def entryLe (fs : Fs) (a b : TPath) : Bool :=
  decide (entryCmp fs a b ≠ Ordering.gt)

/-- `sort_entries` (src/tree.rs:46-60): `slice::sort_by` is a stable merge
sort ordered by the comparator. -/
def sort_entries (fs : Fs) (entries : List TPath) : List TPath :=
  entries.mergeSort (fun a b => entryLe fs a b)

/-- A display node (`tui_tree_widget::TreeItem`): identifier, rendered
label, ordered children (leaves have no children). -/
inductive TreeNode where
  | mk (id : TPath) (label : String) (children : List TreeNode)

/-- Identifier of a node. -/
def TreeNode.id : TreeNode → TPath
  | .mk i _ _ => i

/-- Rendered label of a node. -/
def TreeNode.label : TreeNode → String
  | .mk _ l _ => l

/-- Children of a node. -/
def TreeNode.children : TreeNode → List TreeNode
  | .mk _ _ c => c

/-- `TreeItem::new` of the external `tui_tree_widget` crate: errors when
two direct children share an identifier; `build_tree_item` maps that error
through `io::Error::other` (src/tree.rs:75-76). -/
def treeItemNew (id : TPath) (label : String) (children : List TreeNode) :
    Except IoErr TreeNode :=
  if (children.map TreeNode.id).Nodup then .ok (.mk id label children)
  else .error .other

/-- `str::split('.')` on the underlying characters. -/
def splitOnDot : List Char → List (List Char)
  | [] => [[]]
  | c :: rest =>
    if c = '.' then [] :: splitOnDot rest
    else
      match splitOnDot rest with
      | h :: t => (c :: h) :: t
      | [] => [[c]]

/-- `Path::extension`: the part of the basename after the last `'.'`;
`none` if there is no dot, or the only dot is the leading dot of a hidden
file. -/
def extension (p : TPath) : Option String :=
  match fileName p with
  | none => none
  | some n =>
    let parts := splitOnDot n.data
    if parts.length ≤ 1 then none
    else if strHeadIsDot n ∧ parts.length = 2 then none
    else (parts.getLast?).map (fun cs => String.mk cs)

/-- `get_dir_icon` (src/icons.rs:33-39).  Glyph constants from the external
`nerd_font_symbols` crate are embedded as distinct placeholder strings; no
claim depends on their values. -/
def get_dir_icon (isExpanded : Bool) : String :=
  if isExpanded then "fa_folder_open" else "fa_folder"

/-- `get_icon` (src/icons.rs:4-31). -/
def get_icon (fs : Fs) (p : TPath) (isExpanded : Bool) : String :=
  if fs.isDir p then get_dir_icon isExpanded
  else
    match extension p with
    | some "rs" => "dev_rust"
    | some "toml" => "fa_file_code"
    | some "json" => "fa_file_code"
    | some "md" => "md_language_markdown"
    | some "txt" => "fa_file_text_o"
    | some "py" => "dev_python"
    | some "js" => "dev_javascript"
    | some "ts" => "dev_javascript"
    | some "html" => "dev_html5"
    | some "css" => "dev_css3"
    | some "yml" | some "yaml" => "fa_file_code"
    | some "sh" | some "bash" | some "zsh" => "cod_terminal"
    | some "png" | some "jpg" | some "jpeg" | some "gif" | some "svg"
    | some "ico" => "fa_file_image"
    | some "zip" | some "tar" | some "gz" | some "rar" | some "7z" => "fa_file_zipper"
    | some "pdf" => "fa_file_pdf"
    | some "mp3" | some "wav" | some "flac" | some "ogg" => "fa_file_audio"
    | some "mp4" | some "avi" | some "mkv" | some "mov" => "fa_file_video"
    | some "lock" => "fa_lock"
    | some "git" | some "gitignore" => "dev_git"
    | _ => "fa_file_o"

/-- `format_size` (src/size.rs:51-65).  The Rust renders `bytes as f64 /
unit` with one decimal; embedded in exact `Nat` arithmetic (decimal
truncated), as no claim depends on float rounding. -/
def format_size (bytes : Nat) : String :=
  let kb := 1024
  let mb := kb * 1024
  let gb := mb * 1024
  if bytes ≥ gb then
    toString (bytes / gb) ++ "." ++ toString (bytes * 10 / gb % 10) ++ "G"
  else if bytes ≥ mb then
    toString (bytes / mb) ++ "." ++ toString (bytes * 10 / mb % 10) ++ "M"
  else if bytes ≥ kb then
    toString (bytes / kb) ++ "." ++ toString (bytes * 10 / kb % 10) ++ "K"
  else toString bytes ++ "B"

/-- `Path::display` for an absolute path. -/
def pathDisplay (p : TPath) : String := "/" ++ String.intercalate "/" p

/-- `format_entry_name` (src/tree.rs:17-44). -/
def format_entry_name (fs : Fs) (p : TPath) (isExpanded isStarred : Bool)
    (dir_sizes : Option SizeMap) : String :=
  let icon := get_icon fs p isExpanded
  let name :=
    match fileName p with
    | some n => n
    | none => pathDisplay p
  let star := if isStarred then " ★" else ""
  let sizeStr :=
    if isExpanded && fs.isDir p then
      match dir_sizes with
      | some sizes =>
        match mapGet sizes p with
        | some (some bytes) => " [" ++ format_size bytes ++ "]"
        | some none => " [...]"
        | none => ""
      | none => ""
    else ""
  icon ++ " " ++ name ++ star ++ sizeStr

/-- `format_error` (src/tree.rs:112-118). -/
def format_error (e : IoErr) : String :=
  match e with
  | .permissionDenied => "Permission denied"
  | .notFound => "Not found"
  | .other => "Error"

mutual
/-- `build_tree_item` (src/tree.rs:62-85).  `fuel` bounds the recursion
depth (the Rust recursion is bounded by path length on a real filesystem);
exhausted fuel is an error, and every theorem quantifies over all fuel. -/
def build_tree_item (fuel : Nat) (fs : Fs) (p : TPath)
    (expanded_dirs starred_dirs : List TPath) (show_hidden : Bool)
    (dir_sizes : Option SizeMap) : Except IoErr TreeNode :=
  match fuel with
  | 0 => .error .other
  | fuel + 1 =>
    let isExpanded := decide (p ∈ expanded_dirs)
    let isStarred := decide (p ∈ starred_dirs)
    let name := format_entry_name fs p isExpanded isStarred dir_sizes
    if fs.isDir p && isExpanded then
      match load_children fuel fs p expanded_dirs starred_dirs show_hidden dir_sizes with
      | .ok children => treeItemNew p name children
      | .error e => .ok (.mk p (name ++ " [" ++ format_error e ++ "]") [])
    else .ok (.mk p name [])
termination_by (fuel, 0)

/-- `load_children` (src/tree.rs:87-110): list the directory, filter hidden
entries, sort, and build each child, dropping the ones whose construction
fails. -/
def load_children (fuel : Nat) (fs : Fs) (dir : TPath)
    (expanded_dirs starred_dirs : List TPath) (show_hidden : Bool)
    (dir_sizes : Option SizeMap) : Except IoErr (List TreeNode) :=
  match fs.readDir dir with
  | .error e => .error e
  | .ok es =>
    let entries := es.filter (fun q => show_hidden || !is_hidden q)
    let entries := sort_entries fs entries
    .ok (entries.filterMap (fun q =>
      (build_tree_item fuel fs q expanded_dirs starred_dirs show_hidden dir_sizes).toOption))
termination_by (fuel, 1)
end

unseal List.merge List.mergeSort build_tree_item load_children

/-- `build_tree` (src/tree.rs:120-143): the `load_children` body applied at
the root. -/
def build_tree (fuel : Nat) (fs : Fs) (root : TPath)
    (expanded_dirs starred_dirs : List TPath) (show_hidden : Bool)
    (dir_sizes : Option SizeMap) : Except IoErr (List TreeNode) :=
  match fs.readDir root with
  | .error e => .error e
  | .ok es =>
    let entries := sort_entries fs (es.filter (fun q => show_hidden || !is_hidden q))
    .ok (entries.filterMap (fun q =>
      (build_tree_item fuel fs q expanded_dirs starred_dirs show_hidden dir_sizes).toOption))

/-- `build_starred_list` (src/tree.rs:145-165): sort by lowercased basename
(set-iteration order of the `HashSet` is taken to be the model list's
order), keep existing paths, render as flat leaves. -/
def build_starred_list (fs : Fs) (starred_dirs : List TPath) : Except IoErr (List TreeNode) :=
  let dirs := starred_dirs.mergeSort
    (fun a b => decide (cmpOptName (lowerName a) (lowerName b) ≠ Ordering.gt))
  .ok ((dirs.filter (fun p => fs.pathExists p)).map
    (fun p => .mk p ("★ " ++ pathDisplay p) []))

/-- `build_bookmarks_list` (src/tree.rs:167-186). -/
def build_bookmarks_list (fs : Fs) (bookmarks : List Bookmark) : Except IoErr (List TreeNode) :=
  .ok ((bookmarks.filter (fun b => fs.pathExists b.path)).map (fun b =>
    TreeNode.mk b.path
      (if b.label.isEmpty then "📌 " ++ pathDisplay b.path
       else "📌 " ++ b.label ++ " (" ++ ((fileName b.path).getD "") ++ ")") []))

/-- `build_recent_list` (src/tree.rs:188-201). -/
def build_recent_list (fs : Fs) (recent_dirs : List TPath) : Except IoErr (List TreeNode) :=
  .ok ((recent_dirs.filter (fun p => fs.pathExists p)).map (fun p =>
    TreeNode.mk p ("⏱ " ++ pathDisplay p) []))

/-! ## C3: collapsed directories are never read -/

theorem entryCmp_congr {fs1 fs2 : Fs} (h : ∀ p, fs1.isDir p = fs2.isDir p) (a b : TPath) :
    entryCmp fs1 a b = entryCmp fs2 a b := by
  unfold entryCmp
  rw [h a, h b]

theorem sort_entries_congr {fs1 fs2 : Fs} (h : ∀ p, fs1.isDir p = fs2.isDir p)
    (l : List TPath) : sort_entries fs1 l = sort_entries fs2 l := by
  unfold sort_entries
  congr 1
  funext a b
  unfold entryLe
  rw [entryCmp_congr h a b]

theorem get_icon_congr {fs1 fs2 : Fs} (h : ∀ p, fs1.isDir p = fs2.isDir p) (p : TPath)
    (e : Bool) : get_icon fs1 p e = get_icon fs2 p e := by
  unfold get_icon
  rw [h p]

theorem format_entry_name_congr {fs1 fs2 : Fs} (h : ∀ p, fs1.isDir p = fs2.isDir p)
    (p : TPath) (e s : Bool) (d : Option SizeMap) :
    format_entry_name fs1 p e s d = format_entry_name fs2 p e s d := by
  unfold format_entry_name
  rw [get_icon_congr h, h p]

theorem build_tree_item_congr {fs1 fs2 : Fs}
    (hdir : ∀ p, fs1.isDir p = fs2.isDir p)
    (expanded_dirs starred_dirs : List TPath) (show_hidden : Bool)
    (dir_sizes : Option SizeMap)
    (hexp : ∀ d, d ∈ expanded_dirs → fs1.readDir d = fs2.readDir d) :
    ∀ (fuel : Nat) (p : TPath),
      build_tree_item fuel fs1 p expanded_dirs starred_dirs show_hidden dir_sizes
      = build_tree_item fuel fs2 p expanded_dirs starred_dirs show_hidden dir_sizes := by
  intro fuel
  induction fuel with
  | zero =>
    intro p
    unfold build_tree_item
    rfl
  | succ n ih =>
    intro p
    unfold build_tree_item
    dsimp only
    rw [format_entry_name_congr hdir, hdir p]
    by_cases hd : (fs2.isDir p && decide (p ∈ expanded_dirs)) = true
    · rw [if_pos hd, if_pos hd]
      have hmem : p ∈ expanded_dirs := by
        have := (Bool.and_eq_true _ _).mp hd
        exact of_decide_eq_true this.2
      have hl : load_children n fs1 p expanded_dirs starred_dirs show_hidden dir_sizes
          = load_children n fs2 p expanded_dirs starred_dirs show_hidden dir_sizes := by
        unfold load_children
        rw [hexp p hmem]
        cases fs2.readDir p with
        | error e => rfl
        | ok es =>
          simp only
          rw [sort_entries_congr hdir]
          congr 1
          apply List.filterMap_congr
          intro q _
          rw [ih q]
      rw [hl]
    · rw [if_neg hd, if_neg hd]

/-- **C3.** During a build, a directory absent from the expanded set is
never read: any two filesystems that agree on entry metadata (`is_dir`)
and on the listings of the root and of the expanded directories produce
identical forests, whatever the listings of non-expanded directories are
— collapsed directory contents cannot influence the result. -/
theorem collapsed_dirs_never_read (fuel : Nat) (fs1 fs2 : Fs) (root : TPath)
    (expanded_dirs starred_dirs : List TPath) (show_hidden : Bool)
    (dir_sizes : Option SizeMap)
    (hdir : ∀ p, fs1.isDir p = fs2.isDir p)
    (hroot : fs1.readDir root = fs2.readDir root)
    (hexp : ∀ d, d ∈ expanded_dirs → fs1.readDir d = fs2.readDir d) :
    build_tree fuel fs1 root expanded_dirs starred_dirs show_hidden dir_sizes
    = build_tree fuel fs2 root expanded_dirs starred_dirs show_hidden dir_sizes := by
  unfold build_tree
  rw [hroot]
  cases fs2.readDir root with
  | error e => rfl
  | ok es =>
    simp only
    rw [sort_entries_congr hdir]
    congr 1
    apply List.filterMap_congr
    intro q _
    rw [build_tree_item_congr hdir expanded_dirs starred_dirs show_hidden dir_sizes hexp fuel q]

/-- Shared directory-shape oracle for the C3 witness. -/
def c3dirFn : TPath → Bool := fun p => decide (p = [] ∨ p = ["a"])

/-- C3 witness filesystem 1: the non-expanded directory `a` contains `x`. -/
def c3fsA : Fs :=
  { readDir := fun p => if p = [] then .ok [["a"]] else .ok [["a", "x"]]
    isDir := c3dirFn
    pathExists := fun _ => true }

/-- C3 witness filesystem 2: the non-expanded directory `a` is empty. -/
def c3fsB : Fs :=
  { readDir := fun p => if p = [] then .ok [["a"]] else .ok []
    isDir := c3dirFn
    pathExists := fun _ => true }

/-- Witness for C3: two filesystems that differ only inside the collapsed
directory `a` build the same forest. -/
theorem collapsed_dirs_never_read_witness :
    build_tree 3 c3fsA [] [] [] false none = build_tree 3 c3fsB [] [] [] false none :=
  collapsed_dirs_never_read 3 c3fsA c3fsB [] [] [] false none
    (fun _ => rfl) rfl (fun d hd => absurd hd (List.not_mem_nil d))

/-! ## C9: sibling ordering in built forests -/

theorem cmpChar_eq_lt {a b : Char} : cmpChar a b = Ordering.lt ↔ a.toNat < b.toNat := by
  unfold cmpChar
  by_cases h1 : a.toNat < b.toNat
  · rw [if_pos h1]
    exact iff_of_true rfl h1
  · rw [if_neg h1]
    by_cases h2 : b.toNat < a.toNat
    · rw [if_pos h2]
      exact iff_of_false (by decide) h1
    · rw [if_neg h2]
      exact iff_of_false (by decide) h1

theorem cmpChar_eq_eq {a b : Char} : cmpChar a b = Ordering.eq ↔ a = b := by
  unfold cmpChar
  by_cases h1 : a.toNat < b.toNat
  · rw [if_pos h1]
    exact iff_of_false (by decide) (fun h => by subst h; exact absurd h1 (lt_irrefl _))
  · rw [if_neg h1]
    by_cases h2 : b.toNat < a.toNat
    · rw [if_pos h2]
      exact iff_of_false (by decide) (fun h => by subst h; exact absurd h2 (lt_irrefl _))
    · rw [if_neg h2]
      have h3 : a.toNat = b.toNat := by omega
      exact iff_of_true rfl (Char.ext (UInt32.toNat.inj h3))

theorem cmpCharList_eq_eq : ∀ {a b : List Char}, cmpCharList a b = Ordering.eq ↔ a = b := by
  intro a
  induction a with
  | nil =>
    intro b
    cases b with
    | nil => simp [cmpCharList]
    | cons y ys =>
      simp only [cmpCharList]
      exact iff_of_false (by decide) (by simp)
  | cons x xs ih =>
    intro b
    cases b with
    | nil =>
      simp only [cmpCharList]
      exact iff_of_false (by decide) (by simp)
    | cons y ys =>
      cases hxy : cmpChar x y with
      | eq =>
        have hx : x = y := cmpChar_eq_eq.mp hxy
        subst hx
        simp only [cmpCharList, hxy]
        rw [ih]
        constructor
        · intro h; rw [h]
        · intro h; simpa using h
      | lt =>
        simp only [cmpCharList, hxy]
        refine iff_of_false (by decide) (fun h => ?_)
        injection h with h1 h2
        subst h1
        have he := cmpChar_eq_eq.mpr (rfl : x = x)
        rw [hxy] at he
        exact absurd he (by decide)
      | gt =>
        simp only [cmpCharList, hxy]
        refine iff_of_false (by decide) (fun h => ?_)
        injection h with h1 h2
        subst h1
        have he := cmpChar_eq_eq.mpr (rfl : x = x)
        rw [hxy] at he
        exact absurd he (by decide)

theorem cmpCharList_lt_trans :
    ∀ {a b c : List Char}, cmpCharList a b = Ordering.lt → cmpCharList b c = Ordering.lt →
      cmpCharList a c = Ordering.lt := by
  intro a
  induction a with
  | nil =>
    intro b c h1 h2
    cases b with
    | nil => exact absurd h1 (by simp [cmpCharList])
    | cons y ys =>
      cases c with
      | nil => exact absurd h2 (by simp [cmpCharList])
      | cons z zs => simp [cmpCharList]
  | cons x xs ih =>
    intro b c h1 h2
    cases b with
    | nil => exact absurd h1 (by simp [cmpCharList])
    | cons y ys =>
      cases c with
      | nil => exact absurd h2 (by simp [cmpCharList])
      | cons z zs =>
        cases hxy : cmpChar x y with
        | eq =>
          have hx : x = y := cmpChar_eq_eq.mp hxy
          subst hx
          simp only [cmpCharList, hxy] at h1
          cases hyz : cmpChar x z with
          | eq =>
            simp only [cmpCharList, hyz] at h2 ⊢
            exact ih h1 h2
          | lt => simp only [cmpCharList, hyz]
          | gt =>
            simp only [cmpCharList, hyz] at h2
            exact absurd h2 (by decide)
        | lt =>
          cases hyz : cmpChar y z with
          | eq =>
            have hy : y = z := cmpChar_eq_eq.mp hyz
            subst hy
            simp only [cmpCharList, hxy]
          | lt =>
            have hxz : cmpChar x z = Ordering.lt := by
              rw [cmpChar_eq_lt]
              have u1 := cmpChar_eq_lt.mp hxy
              have u2 := cmpChar_eq_lt.mp hyz
              omega
            simp only [cmpCharList, hxz]
          | gt =>
            simp only [cmpCharList, hyz] at h2
            exact absurd h2 (by decide)
        | gt =>
          simp only [cmpCharList, hxy] at h1
          exact absurd h1 (by decide)

theorem cmpCharList_ne_gt_trans {a b c : List Char}
    (h1 : cmpCharList a b ≠ Ordering.gt) (h2 : cmpCharList b c ≠ Ordering.gt) :
    cmpCharList a c ≠ Ordering.gt := by
  have e1 : cmpCharList a b = Ordering.lt ∨ a = b := by
    cases h : cmpCharList a b with
    | lt => exact Or.inl rfl
    | eq => exact Or.inr (cmpCharList_eq_eq.mp h)
    | gt => exact absurd h h1
  have e2 : cmpCharList b c = Ordering.lt ∨ b = c := by
    cases h : cmpCharList b c with
    | lt => exact Or.inl rfl
    | eq => exact Or.inr (cmpCharList_eq_eq.mp h)
    | gt => exact absurd h h2
  rcases e1 with e1 | e1
  · rcases e2 with e2 | e2
    · rw [cmpCharList_lt_trans e1 e2]; decide
    · subst e2; rw [e1]; decide
  · subst e1; exact h2

theorem cmpOptName_eq_eq : ∀ {x y : Option (List Char)},
    cmpOptName x y = Ordering.eq ↔ x = y := by
  intro x y
  cases x with
  | none =>
    cases y with
    | none => simp [cmpOptName]
    | some b =>
      simp only [cmpOptName]
      constructor
      · intro h; exact absurd h (by decide)
      · intro h; exact absurd h (by simp)
  | some a =>
    cases y with
    | none =>
      simp only [cmpOptName]
      constructor
      · intro h; exact absurd h (by decide)
      · intro h; exact absurd h (by simp)
    | some b =>
      simp only [cmpOptName]
      rw [cmpCharList_eq_eq]
      constructor
      · intro h; rw [h]
      · intro h; injection h

theorem cmpOptName_ne_gt_trans {x y z : Option (List Char)}
    (h1 : cmpOptName x y ≠ Ordering.gt) (h2 : cmpOptName y z ≠ Ordering.gt) :
    cmpOptName x z ≠ Ordering.gt := by
  cases x with
  | none =>
    cases z with
    | none => simp [cmpOptName]
    | some c => simp [cmpOptName]
  | some a =>
    cases y with
    | none => exact absurd rfl h1
    | some b =>
      cases z with
      | none => exact absurd rfl h2
      | some c =>
        simp only [cmpOptName] at h1 h2 ⊢
        exact cmpCharList_ne_gt_trans h1 h2

theorem entryLe_trans (fs : Fs) (a b c : TPath) :
    entryLe fs a b = true → entryLe fs b c = true → entryLe fs a c = true := by
  unfold entryLe
  intro h1 h2
  have p1 : entryCmp fs a b ≠ Ordering.gt := of_decide_eq_true h1
  have p2 : entryCmp fs b c ≠ Ordering.gt := of_decide_eq_true h2
  apply decide_eq_true
  unfold entryCmp at p1 p2 ⊢
  rcases da : fs.isDir a <;> rcases db : fs.isDir b <;> rcases dc : fs.isDir c <;>
    rw [da, db] at p1 <;> rw [db, dc] at p2 <;> simp only
  · exact cmpOptName_ne_gt_trans p1 p2
  · exact absurd rfl p2
  · exact absurd rfl p1
  · exact absurd rfl p1
  · intro h; exact absurd h (by decide)
  · exact absurd rfl p2
  · intro h; exact absurd h (by decide)
  · exact cmpOptName_ne_gt_trans p1 p2

theorem cmpChar_swap (a b : Char) : cmpChar a b = (cmpChar b a).swap := by
  unfold cmpChar
  by_cases h1 : a.toNat < b.toNat
  · rw [if_pos h1, if_neg (by omega), if_pos h1]
    rfl
  · by_cases h2 : b.toNat < a.toNat
    · rw [if_neg h1, if_pos h2, if_pos h2]
      rfl
    · rw [if_neg h1, if_neg h2, if_neg h2, if_neg h1]
      rfl

theorem cmpCharList_swap : ∀ (a b : List Char), cmpCharList a b = (cmpCharList b a).swap
  | [], [] => rfl
  | [], _ :: _ => rfl
  | _ :: _, [] => rfl
  | x :: xs, y :: ys => by
    cases h : cmpChar y x with
    | eq =>
      have hx : cmpChar x y = Ordering.eq := by rw [cmpChar_swap x y, h]; rfl
      simp only [cmpCharList, h, hx]
      exact cmpCharList_swap xs ys
    | lt =>
      have hx : cmpChar x y = Ordering.gt := by rw [cmpChar_swap x y, h]; rfl
      simp only [cmpCharList, h, hx]
      rfl
    | gt =>
      have hx : cmpChar x y = Ordering.lt := by rw [cmpChar_swap x y, h]; rfl
      simp only [cmpCharList, h, hx]
      rfl

theorem cmpOptName_swap (x y : Option (List Char)) :
    cmpOptName x y = (cmpOptName y x).swap := by
  cases x with
  | none =>
    cases y with
    | none => rfl
    | some b => rfl
  | some a =>
    cases y with
    | none => rfl
    | some b => exact cmpCharList_swap a b

theorem entryCmp_swap (fs : Fs) (a b : TPath) :
    entryCmp fs a b = (entryCmp fs b a).swap := by
  unfold entryCmp
  rcases da : fs.isDir a <;> rcases db : fs.isDir b <;> simp only
  · exact cmpOptName_swap _ _
  · rfl
  · rfl
  · exact cmpOptName_swap _ _

theorem entryLe_total (fs : Fs) (a b : TPath) :
    (entryLe fs a b || entryLe fs b a) = true := by
  unfold entryLe
  cases h : entryCmp fs a b with
  | lt => simp [h]
  | eq => simp [h]
  | gt =>
    cases h2 : entryCmp fs b a with
    | lt => simp [h2]
    | eq =>
      rw [entryCmp_swap, h2] at h
      exact absurd h (by decide)
    | gt =>
      rw [entryCmp_swap, h2] at h
      exact absurd h (by decide)

/-- The sibling-ordering property claimed by the spec: every directory
precedes every file, and inside each of the two groups entries are in
case-insensitive alphabetical order of basenames. -/
def childOrder (fs : Fs) (a b : TPath) : Prop :=
  (fs.isDir a = true ∧ fs.isDir b = false) ∨
  (fs.isDir a = fs.isDir b ∧ cmpOptName (lowerName a) (lowerName b) ≠ Ordering.gt)

theorem entryLe_imp_childOrder (fs : Fs) (a b : TPath) (h : entryLe fs a b = true) :
    childOrder fs a b := by
  have hp : entryCmp fs a b ≠ Ordering.gt := of_decide_eq_true h
  rcases da : fs.isDir a <;> rcases db : fs.isDir b
  · refine Or.inr ⟨by rw [da, db], ?_⟩
    have he : entryCmp fs a b = cmpOptName (lowerName a) (lowerName b) := by
      unfold entryCmp
      rw [da, db]
    rw [he] at hp
    exact hp
  · exfalso
    apply hp
    unfold entryCmp
    rw [da, db]
  · exact Or.inl ⟨da, db⟩
  · refine Or.inr ⟨by rw [da, db], ?_⟩
    have he : entryCmp fs a b = cmpOptName (lowerName a) (lowerName b) := by
      unfold entryCmp
      rw [da, db]
    rw [he] at hp
    exact hp

theorem sort_entries_sorted (fs : Fs) (l : List TPath) :
    (sort_entries fs l).Pairwise (fun a b => entryLe fs a b = true) := by
  unfold sort_entries
  exact List.sorted_mergeSort (fun a b c => entryLe_trans fs a b c)
    (fun a b => entryLe_total fs a b) l

theorem except_toOption_eq_some {e : Except IoErr TreeNode} {n : TreeNode}
    (h : e.toOption = some n) : e = Except.ok n := by
  cases e with
  | ok x =>
    simp only [Except.toOption] at h
    injection h with h1
    rw [h1]
  | error e2 => simp [Except.toOption] at h

theorem build_tree_item_id (fuel : Nat) (fs : Fs) (p : TPath) (e s : List TPath)
    (sh : Bool) (sz : Option SizeMap) (n : TreeNode)
    (h : build_tree_item fuel fs p e s sh sz = Except.ok n) : n.id = p := by
  cases fuel with
  | zero =>
    unfold build_tree_item at h
    exact Except.noConfusion h
  | succ m =>
    unfold build_tree_item at h
    dsimp only at h
    split at h
    · split at h
      · unfold treeItemNew at h
        split at h
        · injection h with h1
          rw [← h1]
          rfl
        · exact Except.noConfusion h
      · injection h with h1
        rw [← h1]
        rfl
    · injection h with h1
      rw [← h1]
      rfl

theorem filterMap_build_ids_sublist (fuel : Nat) (fs : Fs) (e s : List TPath) (sh : Bool)
    (sz : Option SizeMap) :
    ∀ (l : List TPath),
      ((l.filterMap (fun q => (build_tree_item fuel fs q e s sh sz).toOption)).map
        TreeNode.id).Sublist l := by
  intro l
  induction l with
  | nil => simp
  | cons p t ih =>
    rw [List.filterMap_cons]
    cases hb : (build_tree_item fuel fs p e s sh sz).toOption with
    | none => exact ih.cons p
    | some n =>
      have hn : n.id = p :=
        build_tree_item_id fuel fs p e s sh sz n (except_toOption_eq_some hb)
      rw [List.map_cons, hn]
      exact List.cons_sublist_cons.mpr ih

theorem load_children_ok (fuel : Nat) (fs : Fs) (dir : TPath) (e s : List TPath) (sh : Bool)
    (sz : Option SizeMap) (children : List TreeNode)
    (h : load_children fuel fs dir e s sh sz = Except.ok children) :
    (children.map TreeNode.id).Pairwise (childOrder fs) ∧
      ∀ c ∈ children, ∃ q, build_tree_item fuel fs q e s sh sz = Except.ok c := by
  unfold load_children at h
  cases hr : fs.readDir dir with
  | error e2 =>
    rw [hr] at h
    exact Except.noConfusion h
  | ok es =>
    rw [hr] at h
    dsimp only at h
    injection h with h1
    subst h1
    constructor
    · exact List.Pairwise.sublist (filterMap_build_ids_sublist fuel fs e s sh sz _)
        ((sort_entries_sorted fs _).imp (fun hab => entryLe_imp_childOrder fs _ _ hab))
    · intro c hc
      rcases List.mem_filterMap.mp hc with ⟨q, _, hq2⟩
      exact ⟨q, except_toOption_eq_some hq2⟩

/-- Every node of a well-formed forest, recursively: children identifiers
pairwise satisfy the sibling order, and all children are themselves
ordered. -/
inductive Ordered (fs : Fs) : TreeNode → Prop where
  | node (id : TPath) (label : String) (children : List TreeNode)
      (hpw : (children.map TreeNode.id).Pairwise (childOrder fs))
      (hch : ∀ c ∈ children, Ordered fs c) : Ordered fs (.mk id label children)

theorem build_tree_item_ordered :
    ∀ (fuel : Nat) (fs : Fs) (p : TPath) (e s : List TPath) (sh : Bool) (sz : Option SizeMap)
      (n : TreeNode), build_tree_item fuel fs p e s sh sz = Except.ok n → Ordered fs n := by
  intro fuel
  induction fuel with
  | zero =>
    intro fs p e s sh sz n h
    unfold build_tree_item at h
    exact Except.noConfusion h
  | succ m ih =>
    intro fs p e s sh sz n h
    unfold build_tree_item at h
    dsimp only at h
    split at h
    · cases hl : load_children m fs p e s sh sz with
      | ok children =>
        rw [hl] at h
        dsimp only at h
        unfold treeItemNew at h
        split at h
        · injection h with h1
          subst h1
          rcases load_children_ok m fs p e s sh sz children hl with ⟨hpw, hmem⟩
          refine Ordered.node _ _ _ hpw ?_
          intro c hc
          rcases hmem c hc with ⟨q, hq⟩
          exact ih fs q e s sh sz c hq
        · exact Except.noConfusion h
      | error e2 =>
        rw [hl] at h
        dsimp only at h
        injection h with h1
        subst h1
        exact Ordered.node _ _ _ (by simp) (by simp)
    · injection h with h1
      subst h1
      exact Ordered.node _ _ _ (by simp) (by simp)

/-- **C9.** In a built forest, among the children of any directory (and
among the roots) every directory precedes every file and, within the
directory group and the file group, entries are in case-insensitive
alphabetical order of basenames; moreover the sort is stable, so entries
the comparator ties keep their original relative order (any tied pair in
listing order survives as a sublist of the sorted output). -/
theorem siblings_ordered :
    (∀ (fuel : Nat) (fs : Fs) (root : TPath) (e s : List TPath) (sh : Bool)
      (sz : Option SizeMap) (items : List TreeNode),
      build_tree fuel fs root e s sh sz = Except.ok items →
      ((items.map TreeNode.id).Pairwise (childOrder fs) ∧ ∀ n ∈ items, Ordered fs n)) ∧
    (∀ (fs : Fs) (l : List TPath) (a b : TPath), entryCmp fs a b = Ordering.eq →
      [a, b].Sublist l → [a, b].Sublist (sort_entries fs l)) := by
  constructor
  · intro fuel fs root e s sh sz items h
    unfold build_tree at h
    cases hr : fs.readDir root with
    | error e2 =>
      rw [hr] at h
      exact Except.noConfusion h
    | ok es =>
      rw [hr] at h
      dsimp only at h
      injection h with h1
      subst h1
      constructor
      · exact List.Pairwise.sublist (filterMap_build_ids_sublist fuel fs e s sh sz _)
          ((sort_entries_sorted fs _).imp (fun hab => entryLe_imp_childOrder fs _ _ hab))
      · intro n hn
        rcases List.mem_filterMap.mp hn with ⟨q, _, hq2⟩
        exact build_tree_item_ordered fuel fs q e s sh sz n (except_toOption_eq_some hq2)
  · intro fs l a b hab hsub
    unfold sort_entries
    refine List.pair_sublist_mergeSort (fun x y z => entryLe_trans fs x y z)
      (fun x y => entryLe_total fs x y) ?_ hsub
    unfold entryLe
    rw [hab]
    decide

/-- Filesystem for the C9 witness: a root containing two files and one
directory, listed out of order. -/
def c9fs : Fs :=
  { readDir := fun p => if p = [] then .ok [["b.txt"], ["A"], ["a.txt"]] else .ok []
    isDir := fun p => decide (p = ["A"])
    pathExists := fun _ => true }

/-- The forest the C9 witness builds. -/
def c9forest : List TreeNode := (build_tree 2 c9fs [] [] [] false none).toOption.getD []

/-- Witness for C9: the concrete forest is sibling-ordered, and a tied pair
keeps its listing order through the sort. -/
theorem siblings_ordered_witness :
    ((c9forest.map TreeNode.id).Pairwise (childOrder c9fs) ∧
      ∀ n ∈ c9forest, Ordered c9fs n) ∧
    [["d", "f.txt"], ["e", "F.TXT"]].Sublist
      (sort_entries c9fs [["d", "f.txt"], ["zz"], ["e", "F.TXT"]]) :=
  ⟨siblings_ordered.1 2 c9fs [] [] [] false none c9forest rfl,
   siblings_ordered.2 c9fs [["d", "f.txt"], ["zz"], ["e", "F.TXT"]]
     ["d", "f.txt"] ["e", "F.TXT"] (by decide) (by decide)⟩

/-! ## Navigation controller (src/app.rs) -/

/-- `ViewMode` (src/app.rs:42-48). -/
inductive ViewMode
  | tree
  | starred
  | bookmarks
  | recent
deriving DecidableEq

/-- `InputMode` (src/app.rs:50-56). -/
inductive InputMode
  | normal
  | search
  | bookmarkLabel
deriving DecidableEq

/-- The controller state (src/app.rs:58-84), restricted to the fields the
core actions read or write.  The `tui_tree_widget::TreeState` selection
widget is an external collaborator: the selected path that
`get_selected_path` reads from it is passed to each action as an argument,
and the widget-only calls (`open`, `close`, `select`, `key_left`) are not
modelled.  `sizeRequestQueue` is the content of the bounded `SizeWorker`
request channel. -/
structure App where
  items : List TreeNode
  root_path : TPath
  persistent_state : PersistentState
  view_mode : ViewMode
  input_mode : InputMode
  search_input : String
  search_matches : List (TPath × Nat)
  search_index : Nat
  search_paths_cache : List TPath
  bookmark_input : String
  bookmark_path : Option TPath
  dir_sizes : SizeMap
  sizeRequestQueue : List TPath
  saved_view_items : Option (List TreeNode)
  saved_selection : Option (List TPath)

/-- `HashSet::insert`. -/
def setInsert (s : List TPath) (p : TPath) : List TPath :=
  if p ∈ s then s else p :: s

/-- `HashSet::remove`. -/
def setRemove (s : List TPath) (p : TPath) : List TPath :=
  s.filter (fun q => decide (q ≠ p))

/-- `SizeWorker::request_size` (src/size.rs:30-32): a non-blocking
`try_send` on the bounded(100) request channel; a full queue silently
drops the request. -/
def request_size (queue : List TPath) (p : TPath) : List TPath :=
  if queue.length < 100 then queue ++ [p] else queue

/-- `request_size_for_dir` (src/app.rs:463-468): gated on the path being
absent from the size cache; inserts the pending entry and enqueues. -/
def request_size_for_dir (app : App) (p : TPath) : App :=
  if (mapGet app.dir_sizes p).isSome then app
  else
    { app with dir_sizes := mapInsert app.dir_sizes p none,
               sizeRequestQueue := request_size app.sizeRequestQueue p }

/-- The body of `rebuild_tree` (src/app.rs:489-501): the builder selected
by the current view mode, applied to the current state and size cache. -/
def buildForView (fuel : Nat) (fs : Fs) (app : App) : Except IoErr (List TreeNode) :=
  match app.view_mode with
  | .tree => build_tree fuel fs app.root_path app.persistent_state.expanded_dirs
      app.persistent_state.starred_dirs app.persistent_state.show_hidden (some app.dir_sizes)
  | .starred => build_starred_list fs app.persistent_state.starred_dirs
  | .bookmarks => build_bookmarks_list fs app.persistent_state.bookmarks
  | .recent => build_recent_list fs app.persistent_state.recent_dirs

/-- `rebuild_tree` (src/app.rs:489-505): `if let Ok(items) = items { ... }`
— on a builder error the previous forest is kept. -/
def rebuild_tree (fuel : Nat) (fs : Fs) (app : App) : App :=
  match buildForView fuel fs app with
  | .ok items => { app with items := items }
  | .error _ => app

/-- Assignment to `self.persistent_state.expanded_dirs`. -/
def withExpanded (app : App) (e : List TPath) : App :=
  { app with persistent_state := { app.persistent_state with expanded_dirs := e } }

/-- Assignment to `self.persistent_state.starred_dirs`. -/
def withStarred (app : App) (s : List TPath) : App :=
  { app with persistent_state := { app.persistent_state with starred_dirs := s } }

/-- `toggle_selected` (src/app.rs:382-396), for a present selection. -/
def toggle_selected (fuel : Nat) (fs : Fs) (app : App) (selected : TPath) : App :=
  if fs.isDir selected = true then
    let app1 :=
      if selected ∈ app.persistent_state.expanded_dirs then
        withExpanded app (setRemove app.persistent_state.expanded_dirs selected)
      else
        request_size_for_dir
          (withExpanded app (setInsert app.persistent_state.expanded_dirs selected)) selected
    rebuild_tree fuel fs app1
  else app

/-- `toggle_star` (src/app.rs:398-409). -/
def toggle_star (fuel : Nat) (fs : Fs) (app : App) (selected : TPath) : App :=
  if fs.isDir selected = true then
    let s := app.persistent_state.starred_dirs
    rebuild_tree fuel fs
      (withStarred app (if selected ∈ s then setRemove s selected else setInsert s selected))
  else app

/-- `expand_selected` (src/app.rs:452-461): insert into the expanded set,
rebuild, and only then request the size. -/
def expand_selected (fuel : Nat) (fs : Fs) (app : App) (selected : TPath) : App :=
  if fs.isDir selected = true ∧ selected ∉ app.persistent_state.expanded_dirs then
    let app1 := withExpanded app (setInsert app.persistent_state.expanded_dirs selected)
    let app2 := rebuild_tree fuel fs app1
    request_size_for_dir app2 selected
  else app

/-- `collapse_or_parent` (src/app.rs:470-482); in the non-collapsing branch
only the selection widget moves. -/
def collapse_or_parent (fuel : Nat) (fs : Fs) (app : App) (selected : TPath) : App :=
  if fs.isDir selected = true ∧ selected ∈ app.persistent_state.expanded_dirs then
    rebuild_tree fuel fs
      (withExpanded app (setRemove app.persistent_state.expanded_dirs selected))
  else app

/-- `toggle_hidden` (src/app.rs:484-487). -/
def toggle_hidden (fuel : Nat) (fs : Fs) (app : App) : App :=
  rebuild_tree fuel fs
    { app with persistent_state :=
        { app.persistent_state with show_hidden := !app.persistent_state.show_hidden } }

/-- The Enter branch of `handle_bookmark_label_key` (src/app.rs:310-318):
`bookmark_path.take()`, add the bookmark, rebuild, return to Normal. -/
def confirm_bookmark_label (fuel : Nat) (fs : Fs) (app : App) (now : Nat) : App :=
  match app.bookmark_path with
  | some path =>
    let app1 := { app with
      persistent_state := add_bookmark app.persistent_state path app.bookmark_input now,
      bookmark_path := none }
    let app2 := rebuild_tree fuel fs app1
    { app2 with input_mode := InputMode.normal, bookmark_input := "" }
  | none => { app with input_mode := InputMode.normal, bookmark_input := "" }

/-- `exit_search_mode` (src/app.rs:555-571). -/
def exit_search_mode (app : App) : App :=
  let app1 :=
    { app with
      input_mode := InputMode.normal,
      search_input := "",
      search_matches := ([] : List (TPath × Nat)),
      search_index := 0,
      search_paths_cache := ([] : List TPath) }
  match app1.saved_view_items with
  | some items =>
    { app1 with items := items, saved_view_items := none, saved_selection := none }
  | none => app1

/-- `Path::parent`. -/
def parentPath : TPath → Option TPath
  | [] => none
  | p => some p.dropLast

/-- The ancestor-collection loop of `jump_to_search_result`
(src/app.rs:636-644): climb from the target towards the filesystem root,
keeping every path that is a strict descendant-or-self of the tree root. -/
def ancestorChainAux (root : TPath) : TPath → List TPath
  | [] =>
    if root.isPrefixOf ([] : TPath) ∧ ([] : TPath) ≠ root then [([] : TPath)] else []
  | a :: t =>
    let p := a :: t
    let here := if root.isPrefixOf p ∧ p ≠ root then [p] else []
    here ++ ancestorChainAux root p.dropLast
termination_by x => x.length
decreasing_by
  simp [List.length_dropLast]

unseal ancestorChainAux

/-- `selection_path` of `jump_to_search_result` (src/app.rs:636-645),
after the final `reverse`. -/
def selection_path_of (root target : TPath) : List TPath :=
  (ancestorChainAux root target).reverse

/-- `jump_to_search_result` (src/app.rs:620-668).  The source indexes
`search_matches[search_index]` (which panics out of bounds); the model
reads it with a default.  Widget-only calls are omitted. -/
def jump_to_search_result (fuel : Nat) (fs : Fs) (app : App) : App :=
  if app.search_matches.isEmpty then exit_search_mode app
  else
    let path := (app.search_matches.getD app.search_index ([], 0)).1
    let app1 :=
      match app.saved_view_items with
      | some items => { app with items := items, saved_view_items := none }
      | none => app
    let app2 := { app1 with saved_selection := none }
    let sel := selection_path_of app2.root_path path
    let ancestors := sel.take (sel.length - 1)
    let app3 := withExpanded app2
      (ancestors.foldl (fun acc a => if a ∈ acc then acc else setInsert acc a)
        app2.persistent_state.expanded_dirs)
    let app4 := rebuild_tree fuel fs app3
    { app4 with
      input_mode := InputMode.normal,
      search_input := "",
      search_matches := [],
      search_index := 0,
      search_paths_cache := [] }

/-! ## C4: the forest is always freshly rebuilt -/

theorem rebuild_tree_ok (fuel : Nat) (fs : Fs) (app : App) (ts : List TreeNode)
    (h : buildForView fuel fs (rebuild_tree fuel fs app) = Except.ok ts) :
    (rebuild_tree fuel fs app).items = ts := by
  unfold rebuild_tree at h ⊢
  cases hb : buildForView fuel fs app with
  | ok its =>
    rw [hb] at h
    have h2 : buildForView fuel fs app = Except.ok ts := h
    rw [hb] at h2
    exact Except.ok.inj h2
  | error e =>
    rw [hb] at h
    have h2 : buildForView fuel fs app = Except.ok ts := h
    rw [hb] at h2
    exact Except.noConfusion h2

theorem rebuild_tree_ok2 (fuel : Nat) (fs : Fs) (a b : App) (ts : List TreeNode)
    (h : buildForView fuel fs b = Except.ok ts)
    (hitems : b.items = (rebuild_tree fuel fs a).items)
    (hbv : buildForView fuel fs b = buildForView fuel fs (rebuild_tree fuel fs a)) :
    b.items = ts := by
  rw [hitems]
  rw [hbv] at h
  exact rebuild_tree_ok fuel fs a ts h

theorem rebuild_tree_dir_sizes (fuel : Nat) (fs : Fs) (app : App) :
    (rebuild_tree fuel fs app).dir_sizes = app.dir_sizes := by
  unfold rebuild_tree
  cases hb : buildForView fuel fs app <;> rfl

theorem rebuild_tree_queue (fuel : Nat) (fs : Fs) (app : App) :
    (rebuild_tree fuel fs app).sizeRequestQueue = app.sizeRequestQueue := by
  unfold rebuild_tree
  cases hb : buildForView fuel fs app <;> rfl

theorem request_size_for_dir_items (app : App) (p : TPath) :
    (request_size_for_dir app p).items = app.items := by
  unfold request_size_for_dir
  split <;> rfl

/-- The invariant claimed for the controller: whenever the view builder
succeeds on the current inputs, the current forest is exactly its output. -/
def forest_inv (fuel : Nat) (fs : Fs) (app : App) : Prop :=
  ∀ ts, buildForView fuel fs app = Except.ok ts → app.items = ts

/-- Filesystem for the C4 and C6 scenarios: the root contains the single
directory `a`, which is empty. -/
def c4fs : Fs :=
  { readDir := fun p => if p = [] then .ok [["a"]] else .ok []
    isDir := fun p => decide (p = [] ∨ p = ["a"])
    pathExists := fun _ => true }

/-- A fresh controller state at root `[]` in Tree view. -/
def c4app : App :=
  { items := []
    root_path := []
    persistent_state := ⟨[], [], false, [], []⟩
    view_mode := ViewMode.tree
    input_mode := InputMode.normal
    search_input := ""
    search_matches := []
    search_index := 0
    search_paths_cache := []
    bookmark_input := ""
    bookmark_path := none
    dir_sizes := []
    sizeRequestQueue := []
    saved_view_items := none
    saved_selection := none }

/-- Labels of a built forest, used to tell two build results apart. -/
def forestLabelsOfExcept (x : Except IoErr (List TreeNode)) : Option (List String) :=
  match x with
  | .ok l => some (l.map TreeNode.label)
  | .error _ => none

/-- **C4, counterexample.** After `expand_selected` the forest does *not*
equal the builder applied to the current `PersistentState` and current
size cache: `expand_selected` calls `rebuild_tree` *before*
`request_size_for_dir` inserts the pending cache entry (src/app.rs:455-458),
so the freshly expanded directory's label lacks the pending `[...]`
annotation that a rebuild on the current cache would produce. -/
theorem forest_stale_after_expand :
    ¬ (buildForView 3 c4fs (expand_selected 3 c4fs c4app ["a"])
        = Except.ok ((expand_selected 3 c4fs c4app ["a"]).items)) :=
  fun h => absurd (congrArg forestLabelsOfExcept h) (by decide)

/-- **C4, amended.** After every mutating action — expand/collapse via the
space toggle, collapse, star toggle, hidden toggle, bookmark confirm,
search-jump confirm — the forest equals the builder applied to the
action's final state and size cache whenever that build succeeds (on a
builder error `rebuild_tree` keeps the previous forest); nodes are never
patched in place.  The one exception is `expand_selected`, which rebuilds
*before* inserting the pending size-cache entry: there the forest equals
the Tree builder applied to the new expanded set and the *pre-request*
size cache. -/
theorem forest_always_rebuilt :
    (∀ (fuel : Nat) (fs : Fs) (app : App) (sel : TPath), fs.isDir sel = true →
      forest_inv fuel fs (toggle_selected fuel fs app sel)) ∧
    (∀ (fuel : Nat) (fs : Fs) (app : App) (sel : TPath), fs.isDir sel = true →
      sel ∈ app.persistent_state.expanded_dirs →
      forest_inv fuel fs (collapse_or_parent fuel fs app sel)) ∧
    (∀ (fuel : Nat) (fs : Fs) (app : App) (sel : TPath), fs.isDir sel = true →
      forest_inv fuel fs (toggle_star fuel fs app sel)) ∧
    (∀ (fuel : Nat) (fs : Fs) (app : App),
      forest_inv fuel fs (toggle_hidden fuel fs app)) ∧
    (∀ (fuel : Nat) (fs : Fs) (app : App) (now : Nat) (p : TPath),
      app.bookmark_path = some p →
      forest_inv fuel fs (confirm_bookmark_label fuel fs app now)) ∧
    (∀ (fuel : Nat) (fs : Fs) (app : App), app.search_matches ≠ [] →
      forest_inv fuel fs (jump_to_search_result fuel fs app)) ∧
    (∀ (fuel : Nat) (fs : Fs) (app : App) (sel : TPath) (ts : List TreeNode),
      app.view_mode = ViewMode.tree →
      fs.isDir sel = true → sel ∉ app.persistent_state.expanded_dirs →
      build_tree fuel fs app.root_path
          (setInsert app.persistent_state.expanded_dirs sel)
          app.persistent_state.starred_dirs app.persistent_state.show_hidden
          (some app.dir_sizes) = Except.ok ts →
      (expand_selected fuel fs app sel).items = ts) := by
  refine ⟨?_, ?_, ?_, ?_, ?_, ?_, ?_⟩
  · intro fuel fs app sel hdir
    unfold forest_inv toggle_selected
    rw [if_pos hdir]
    intro ts h
    exact rebuild_tree_ok2 fuel fs _ _ ts h rfl rfl
  · intro fuel fs app sel hdir hmem
    unfold forest_inv collapse_or_parent
    rw [if_pos ⟨hdir, hmem⟩]
    intro ts h
    exact rebuild_tree_ok2 fuel fs _ _ ts h rfl rfl
  · intro fuel fs app sel hdir
    unfold forest_inv toggle_star
    rw [if_pos hdir]
    intro ts h
    exact rebuild_tree_ok2 fuel fs _ _ ts h rfl rfl
  · intro fuel fs app
    unfold forest_inv toggle_hidden
    intro ts h
    exact rebuild_tree_ok2 fuel fs _ _ ts h rfl rfl
  · intro fuel fs app now p hbp
    unfold forest_inv confirm_bookmark_label
    rw [hbp]
    dsimp only
    intro ts h
    exact rebuild_tree_ok2 fuel fs _ _ ts h rfl rfl
  · intro fuel fs app hne
    unfold forest_inv jump_to_search_result
    have hcond : app.search_matches.isEmpty = false := by
      cases hm : app.search_matches with
      | nil => exact absurd hm hne
      | cons x t => rfl
    rw [hcond]
    dsimp only
    intro ts h
    exact rebuild_tree_ok2 fuel fs _ _ ts h rfl rfl
  · intro fuel fs app sel ts hview hdir hnot h
    unfold expand_selected
    rw [if_pos ⟨hdir, hnot⟩]
    dsimp only
    rw [request_size_for_dir_items]
    have hv : (withExpanded app (setInsert app.persistent_state.expanded_dirs sel)).view_mode
        = ViewMode.tree := hview
    have hb : buildForView fuel fs
        (withExpanded app (setInsert app.persistent_state.expanded_dirs sel))
        = build_tree fuel fs app.root_path
            (setInsert app.persistent_state.expanded_dirs sel)
            app.persistent_state.starred_dirs app.persistent_state.show_hidden
            (some app.dir_sizes) := by
      unfold buildForView
      rw [hv]
      rfl
    unfold rebuild_tree
    rw [hb, h]

/-- Controller state with directory `a` already expanded. -/
def c4expApp : App := { c4app with persistent_state := ⟨[["a"]], [], false, [], []⟩ }

/-- Controller state in the middle of labelling a bookmark for `a`. -/
def c4bmApp : App := { c4app with bookmark_path := some ["a"] }

/-- Controller state with one pending search match for `a`. -/
def c4jumpApp : App := { c4app with search_matches := [(["a"], 10)] }

/-- Expected forest for the C4 witness, toggle action. -/
def c4wit1 : List TreeNode :=
  (buildForView 3 c4fs (toggle_selected 3 c4fs c4app ["a"])).toOption.getD []

/-- Expected forest for the C4 witness, collapse action. -/
def c4wit2 : List TreeNode :=
  (buildForView 3 c4fs (collapse_or_parent 3 c4fs c4expApp ["a"])).toOption.getD []

/-- Expected forest for the C4 witness, star action. -/
def c4wit3 : List TreeNode :=
  (buildForView 3 c4fs (toggle_star 3 c4fs c4app ["a"])).toOption.getD []

/-- Expected forest for the C4 witness, hidden toggle. -/
def c4wit4 : List TreeNode :=
  (buildForView 3 c4fs (toggle_hidden 3 c4fs c4app)).toOption.getD []

/-- Expected forest for the C4 witness, bookmark confirm. -/
def c4wit5 : List TreeNode :=
  (buildForView 3 c4fs (confirm_bookmark_label 3 c4fs c4bmApp 7)).toOption.getD []

/-- Expected forest for the C4 witness, search jump. -/
def c4wit6 : List TreeNode :=
  (buildForView 3 c4fs (jump_to_search_result 3 c4fs c4jumpApp)).toOption.getD []

/-- Expected forest for the C4 witness, expand (built on the pre-request
size cache). -/
def c4wit7 : List TreeNode :=
  (build_tree 3 c4fs c4app.root_path
    (setInsert c4app.persistent_state.expanded_dirs ["a"])
    c4app.persistent_state.starred_dirs c4app.persistent_state.show_hidden
    (some c4app.dir_sizes)).toOption.getD []

/-- Witness for the amended C4: every conjunct applied at a concrete
state. -/
theorem forest_always_rebuilt_witness :
    (toggle_selected 3 c4fs c4app ["a"]).items = c4wit1 ∧
    (collapse_or_parent 3 c4fs c4expApp ["a"]).items = c4wit2 ∧
    (toggle_star 3 c4fs c4app ["a"]).items = c4wit3 ∧
    (toggle_hidden 3 c4fs c4app).items = c4wit4 ∧
    (confirm_bookmark_label 3 c4fs c4bmApp 7).items = c4wit5 ∧
    (jump_to_search_result 3 c4fs c4jumpApp).items = c4wit6 ∧
    (expand_selected 3 c4fs c4app ["a"]).items = c4wit7 :=
  ⟨forest_always_rebuilt.1 3 c4fs c4app ["a"] (by decide) c4wit1 rfl,
   forest_always_rebuilt.2.1 3 c4fs c4expApp ["a"] (by decide) (by decide) c4wit2 rfl,
   forest_always_rebuilt.2.2.1 3 c4fs c4app ["a"] (by decide) c4wit3 rfl,
   forest_always_rebuilt.2.2.2.1 3 c4fs c4app c4wit4 rfl,
   forest_always_rebuilt.2.2.2.2.1 3 c4fs c4bmApp 7 ["a"] rfl c4wit5 rfl,
   forest_always_rebuilt.2.2.2.2.2.1 3 c4fs c4jumpApp (by decide) c4wit6 rfl,
   forest_always_rebuilt.2.2.2.2.2.2 3 c4fs c4app ["a"] c4wit7 rfl (by decide) (by decide) rfl⟩

/-! ## C6: a dropped size request is permanent for the session -/

/-- Controller state whose request queue is already full. -/
def c6app : App := { c4app with sizeRequestQueue := List.replicate 100 ["qq"] }

/-- Expand `a` while the queue is full: the request is dropped but the
pending cache entry is created. -/
def c6step1 : App := expand_selected 3 c4fs c6app ["a"]

/-- Collapse `a` again. -/
def c6step2 : App := collapse_or_parent 3 c4fs c6step1 ["a"]

/-- Re-expand `a`: the cache-presence gate suppresses any new request. -/
def c6step3 : App := expand_selected 3 c4fs c6step2 ["a"]

/-- **C6, counterexample.** A size request dropped because the queue was
full is *not* recoverable by re-expanding: after the drop, collapsing and
re-expanding the directory leaves the request queue without any entry for
it (the queue still holds only the 100 old requests), while its cache
entry stays pending forever. -/
theorem dropped_request_never_reenqueued :
    (¬ (["a"] ∈ c6step3.sizeRequestQueue)) ∧
    mapGet c6step3.dir_sizes ["a"] = some none ∧
    c6step3.sizeRequestQueue = List.replicate 100 ["qq"] := by
  refine ⟨by decide, by decide, by decide⟩

/-- **C6, amended.** A dropped size request is permanent for the session:
`request_size_for_dir` is a complete no-op whenever the path already has a
cache entry, so re-expanding a directory whose request was dropped never
enqueues again; and when the queue is full, the request is dropped while
the pending cache entry is still created — which is exactly what gates all
later requests. -/
theorem size_request_gated_by_cache :
    (∀ (app : App) (p : TPath), (mapGet app.dir_sizes p).isSome = true →
      request_size_for_dir app p = app) ∧
    (∀ (fuel : Nat) (fs : Fs) (app : App) (sel : TPath),
      (mapGet app.dir_sizes sel).isSome = true →
      (expand_selected fuel fs app sel).sizeRequestQueue = app.sizeRequestQueue) ∧
    (∀ (app : App) (p : TPath), 100 ≤ app.sizeRequestQueue.length →
      mapGet app.dir_sizes p = none →
      (request_size_for_dir app p).sizeRequestQueue = app.sizeRequestQueue ∧
      mapGet (request_size_for_dir app p).dir_sizes p = some none) := by
  refine ⟨?_, ?_, ?_⟩
  · intro app p h
    unfold request_size_for_dir
    rw [if_pos h]
  · intro fuel fs app sel h
    unfold expand_selected
    by_cases hc : fs.isDir sel = true ∧ sel ∉ app.persistent_state.expanded_dirs
    · rw [if_pos hc]
      unfold request_size_for_dir
      have hds : (mapGet (rebuild_tree fuel fs
          (withExpanded app (setInsert app.persistent_state.expanded_dirs sel))).dir_sizes
          sel).isSome = true := by
        rw [rebuild_tree_dir_sizes]
        exact h
      rw [if_pos hds]
      exact rebuild_tree_queue fuel fs _
    · rw [if_neg hc]
  · intro app p hlen hnone
    unfold request_size_for_dir
    rw [if_neg (by rw [hnone]; simp)]
    constructor
    · show request_size app.sizeRequestQueue p = app.sizeRequestQueue
      unfold request_size
      rw [if_neg (by omega)]
    · show mapGet (mapInsert app.dir_sizes p none) p = some none
      unfold mapGet mapInsert
      simp

/-- Controller state with a resolved size for `a`. -/
def c6wapp : App := { c4app with dir_sizes := [(["a"], some 5)] }

/-- Witness for the amended C6: all three conjuncts at concrete states. -/
theorem size_request_gated_by_cache_witness :
    request_size_for_dir c6wapp ["a"] = c6wapp ∧
    (expand_selected 2 c4fs c6wapp ["a"]).sizeRequestQueue = c6wapp.sizeRequestQueue ∧
    ((request_size_for_dir c6app ["b"]).sizeRequestQueue = c6app.sizeRequestQueue ∧
      mapGet (request_size_for_dir c6app ["b"]).dir_sizes ["b"] = some none) :=
  ⟨size_request_gated_by_cache.1 c6wapp ["a"] (by decide),
   size_request_gated_by_cache.2.1 2 c4fs c6wapp ["a"] (by decide),
   size_request_gated_by_cache.2.2 c6app ["b"] (by decide) (by decide)⟩

end Treenav
